import Mathlib

/-!
Verification of the client-side synchronization engine of a chat frontend:
the SSE frame decoder and stream controller (`streaming.ts`), the paging
logic of the remote gateway (`openai-client.ts`), and the reconciliation
logic of the conversation provider (`ConversationProvider`): optimistic
append, stream delta application, identifier unification on poll merge,
message deletion, and cancellation.

Every definition below is a direct translation of the corresponding
TypeScript source.  JavaScript string truthiness is made explicit via
`jsTruthy`; `JSON.parse` is abstracted as a parameter `parse` of the SSE
decoder since it is a platform primitive.
-/

namespace Spec2Proof

/-! ## Data model (`types.ts`) -/

/-- `Message.role` in `types.ts`. -/
inductive Role where
  | user
  | assistant
  | system
deriving DecidableEq, Repr

/-- `Message.status` in `types.ts`. -/
inductive MsgStatus where
  | sending
  | streaming
  | complete
  | error
deriving DecidableEq, Repr

/-- `Message` in `types.ts` (the optional web-search sub-records are never
read by the synchronization logic and are omitted). -/
structure Message where
  id : String
  role : Role
  content : String
  timestamp : Nat
  status : MsgStatus
deriving DecidableEq, Repr

/-- `Conversation.status` in `types.ts`. -/
inductive ConvStatus where
  | active
  | generating
  | error
deriving DecidableEq, Repr

/-- `Conversation` in `types.ts`.  `messageCount` is an `Int` because the
TypeScript field is a plain number and the deletion path explicitly floors
it at zero with `Math.max`. -/
structure Conversation where
  id : String
  title : Option String
  createdAt : Nat
  lastActive : Nat
  messageCount : Int
  status : ConvStatus
deriving DecidableEq, Repr

/-! ## SSE decoding and stream control (`streaming.ts`) -/

/-- `StreamChunk` in `streaming.ts` (the fields the engine reads). -/
structure StreamChunk where
  type : Option String
  delta : Option String
  item_id : Option String
deriving DecidableEq, Repr

/-- JavaScript truthiness of an optional string: `undefined` and the empty
string are falsy. -/
def jsTruthy : Option String → Bool
  | none => false
  | some s => s ≠ ""

/-- JavaScript `a || b` on an optional string with a string default, as in
`serverItemId || msg.id`. -/
def jsOrStr (o : Option String) (d : String) : String :=
  match o with
  | some s => if s = "" then d else s
  | none => d

/-- JavaScript `s.includes(c)` for a single character, over the character
list of the string. -/
def jsIncludesChar (s : String) (c : Char) : Bool :=
  s.data.contains c

/-- JavaScript `s.startsWith(pre)`, over the character lists. -/
def jsStartsWith (s pre : String) : Bool :=
  s.data.take pre.data.length == pre.data

/-- JavaScript `s.substring(0, n)`, over the character list. -/
def jsTake (s : String) (n : Nat) : String :=
  String.mk (s.data.take n)

/-- JavaScript `s.slice(n)`, over the character list. -/
def jsDrop (s : String) (n : Nat) : String :=
  String.mk (s.data.drop n)

/-- One line of `SSEParser.feed`: a line starting with the `data: ` prefix
is stripped; the `[DONE]` sentinel is dropped; otherwise the payload is
handed to `parse` (the model of `JSON.parse`): on success the chunk is
pushed, on failure the error counter (the `console.error` call) is bumped
and decoding continues. -/
def sseFeedLine (parse : String → Option StreamChunk)
    (acc : List StreamChunk × Nat) (line : String) : List StreamChunk × Nat :=
  if jsStartsWith line ("data: ") then
    let data := jsDrop line 6
    if data = "[DONE]" then acc
    else
      match parse data with
      | some c => (acc.1 ++ [c], acc.2)
      | none => (acc.1, acc.2 + 1)
  else acc

/-- The buffer state of `SSEParser`. -/
structure SSEParser where
  buffer : String
deriving DecidableEq, Repr

/-- `SSEParser.feed`: append the chunk to the buffer, split on newlines,
keep the trailing partial line as the new buffer (`lines.pop() || ''`) and
process every complete line.  Returns the decoded chunks, the number of
parse failures logged, and the updated parser. -/
def sseFeed (parse : String → Option StreamChunk) (p : SSEParser)
    (chunk : String) : List StreamChunk × Nat × SSEParser :=
  let buf := p.buffer ++ chunk
  let lines := buf.splitOn "\n"
  let newBuffer := (lines.getLast?).getD ""
  let complete := lines.dropLast
  let out := complete.foldl (sseFeedLine parse) ([], 0)
  (out.1, out.2, ⟨newBuffer⟩)

/-- The value a complete line contributes to the output of `feed`:
`none` for non-data lines, the `[DONE]` sentinel, and malformed payloads. -/
def lineFrame (parse : String → Option StreamChunk) (line : String) :
    Option StreamChunk :=
  if jsStartsWith line ("data: ") then
    let data := jsDrop line 6
    if data = "[DONE]" then none else parse data
  else none

/-- Whether a complete line is a malformed data payload (counted by the
`console.error` branch of `feed`). -/
def lineMalformed (parse : String → Option StreamChunk) (line : String) :
    Bool :=
  if jsStartsWith line ("data: ") then
    let data := jsDrop line 6
    if data = "[DONE]" then false
    else (parse data).isNone
  else false

/-- `extractContentFromChunk` in `streaming.ts`. -/
def extractContentFromChunk (c : StreamChunk) : String :=
  if c.type = some ("response.output_text.delta") ∧ jsTruthy c.delta then
    c.delta.getD ""
  else ""

/-- The completion test of the `startStream` read loop. -/
def isCompletionChunk (c : StreamChunk) : Bool :=
  c.type = some ("response.completed") ∨ c.type = some ("response.output_item.done")

/-- The `abortController` field of `StreamManager`: `none` is the `null`
state, `some b` a controller whose signal has `aborted = b`. -/
abbrev StreamMgr := Option Bool

/-- `StreamManager.cancel`: if a controller exists it is aborted and the
field is set to `null`; otherwise nothing happens. -/
def mgrCancel : StreamMgr → StreamMgr
  | some _ => none
  | none => none

/-- What the `catch` block of `startStream` does, as a function of the
`abortController` field at that moment.  Reading
`this.abortController.signal` when the field is `null` throws a
`TypeError` out of `startStream`, so `onError` is not reached. -/
inductive CatchOutcome where
  | onErrorInvoked
  | suppressed
  | threwTypeError
deriving DecidableEq, Repr

/-- The dispatch of the `catch (error)` block of `StreamManager.startStream`:
`if (!this.abortController.signal.aborted) onError?.(error)`. -/
def startStreamCatch : StreamMgr → CatchOutcome
  | none => CatchOutcome.threwTypeError
  | some true => CatchOutcome.suppressed
  | some false => CatchOutcome.onErrorInvoked

/-- The abort check at the top of the `startStream` read loop:
`if (this.abortController.signal.aborted) break`.  `Except.error` models
the `TypeError` thrown when the field is `null`; `Except.ok b` reports
whether the loop breaks. -/
def loopAbortCheck : StreamMgr → Except Unit Bool
  | none => Except.error ()
  | some b => Except.ok b

/-! ## Reconciliation engine (`ConversationProvider`) -/

/-- The `onContent` callback passed to `startStream` by `sendMessage`:
map over the session's messages and append the delta to the message at the
last index when its role is `assistant`. -/
def applyContentDelta (msgs : List Message) (d : String) : List Message :=
  msgs.mapIdx fun idx msg =>
    if idx = msgs.length - 1 ∧ msg.role = Role.assistant then
      { msg with content := msg.content ++ d }
    else msg

/-- The `onComplete` callback's message update in `sendMessage`: the
message at the last index, when its role is `assistant`, gets
`id: serverItemId || msg.id` and `status: 'complete'`. -/
def applyStreamComplete (msgs : List Message) (serverItemId : Option String) :
    List Message :=
  msgs.mapIdx fun idx msg =>
    if idx = msgs.length - 1 ∧ msg.role = Role.assistant then
      { msg with id := jsOrStr serverItemId msg.id, status := MsgStatus.complete }
    else msg

/-- The state touched by the streaming branch of `sendMessage`:
the session's message list, the captured `serverItemId` local, the
`lastSeenItemId` watermark, the conversation directory and the
`isGenerating` flag. -/
structure StreamRunState where
  messages : List Message
  serverItemId : Option String
  lastSeenItemId : Option String
  conversations : List Conversation
  isGenerating : Bool
deriving DecidableEq, Repr

/-- The `onChunk` callback of `sendMessage`:
`if (chunk.item_id && !serverItemId) serverItemId = chunk.item_id`
(first truthy id wins). -/
def onChunkUpdate (st : StreamRunState) (c : StreamChunk) : StreamRunState :=
  if jsTruthy c.item_id ∧ ¬ jsTruthy st.serverItemId then
    { st with serverItemId := c.item_id }
  else st

/-- The `onComplete` callback of `sendMessage`: rewrite the placeholder in
place, advance the watermark when a server id was captured, flip the
conversation back to `active` with an incremented count, clear the flag. -/
def onCompleteUpdate (cid : String) (st : StreamRunState) : StreamRunState :=
  { st with
    messages := applyStreamComplete st.messages st.serverItemId
    lastSeenItemId :=
      if jsTruthy st.serverItemId then st.serverItemId else st.lastSeenItemId
    conversations := st.conversations.map fun c =>
      if c.id = cid then
        { c with status := ConvStatus.active, messageCount := c.messageCount + 1 }
      else c
    isGenerating := false }

/-- One iteration of the `startStream` read loop combined with the
callbacks `sendMessage` wires into it: `onChunk` first, then `onContent`
when the extracted content is nonempty, then the completion check, which
fires `onComplete` and breaks (`Bool` reports the break). -/
def streamStep (cid : String) (st : StreamRunState) (c : StreamChunk) :
    StreamRunState × Bool :=
  let st1 := onChunkUpdate st c
  let content := extractContentFromChunk c
  let st2 :=
    if content ≠ "" then { st1 with messages := applyContentDelta st1.messages content }
    else st1
  if isCompletionChunk c then (onCompleteUpdate cid st2, true) else (st2, false)

/-- The `startStream` read loop over the decoded chunks of an uncancelled
stream, stopping at the first completion chunk. -/
def runStream (cid : String) (st : StreamRunState) : List StreamChunk → StreamRunState
  | [] => st
  | c :: cs =>
    match streamStep cid st c with
    | (st', true) => st'
    | (st', false) => runStream cid st' cs

/-- The value of the `serverItemId` local after a list of chunks has gone
through the `onChunk` callback, starting from `acc`. -/
def firstServerIdFrom (acc : Option String) (cs : List StreamChunk) : Option String :=
  cs.foldl
    (fun acc c => if jsTruthy c.item_id ∧ ¬ jsTruthy acc then c.item_id else acc)
    acc

/-- The dedup signature of the poll merge:
`` `${m.role}:${m.content.substring(0, 100)}` ``. -/
def roleString : Role → String
  | Role.user => "user"
  | Role.assistant => "assistant"
  | Role.system => "system"

/-- `signature` built inside `pollForNewItems`. -/
def signature (m : Message) : String :=
  roleString m.role ++ ":" ++ jsTake m.content 100

/-- The UUID test of the poll merge's replacement pass:
`msg.id.includes('-') && msg.id.length === 36`. -/
def isLocalUuid (id : String) : Bool :=
  jsIncludesChar id '-' ∧ id.length = 36

/-- The `uniqueNewMessages` filter of `pollForNewItems`: drop a polled
message whose id is already present or whose signature matches an existing
message. -/
def uniqueNewMessages (prevMsgs newMessages : List Message) : List Message :=
  let existingIds := prevMsgs.map fun m => m.id
  let existingSignatures := prevMsgs.map signature
  newMessages.filter fun m =>
    !(existingIds.contains m.id) && !(existingSignatures.contains (signature m))

/-- The replacement pass of `pollForNewItems`: map over the existing
messages; a message with a local UUID id is matched against the remaining
unique new messages by role and exact content; on a match the server
version is spliced out of the remaining list and the local id replaced.
The second component is what is left of `uniqueNewMessages` and is
appended afterwards. -/
def replacePass : List Message → List Message → List Message × List Message
  | [], unique => ([], unique)
  | msg :: rest, unique =>
    if isLocalUuid msg.id then
      match unique.find? (fun n => n.role = msg.role ∧ n.content = msg.content) with
      | some serverVersion =>
        let out := replacePass rest (unique.erase serverVersion)
        ({ msg with id := serverVersion.id } :: out.1, out.2)
      | none =>
        let out := replacePass rest unique
        (msg :: out.1, out.2)
    else
      let out := replacePass rest unique
      (msg :: out.1, out.2)

/-- The `setCurrentSession` merge of `pollForNewItems`: filter the polled
messages, return the list unchanged when nothing survives, otherwise run
the replacement pass and append the remaining new messages. -/
def mergePollMessages (prevMsgs newMessages : List Message) : List Message :=
  let uniqueNew := uniqueNewMessages prevMsgs newMessages
  if uniqueNew.isEmpty then prevMsgs
  else
    let out := replacePass prevMsgs uniqueNew
    out.1 ++ out.2

/-- The server-id test of `deleteMessage`:
`!newLastId.includes('-') || newLastId.startsWith('item_')`. -/
def isServerId (id : String) : Bool :=
  !(jsIncludesChar id '-') || jsStartsWith id ("item_")

/-- The local state read and written by `deleteMessage` (after the Gateway
call succeeded): the active conversation id, the session's messages, the
conversation directory and the polling watermark. -/
structure SessionState where
  activeConversation : String
  messages : List Message
  conversations : List Conversation
  lastSeenItemId : Option String
deriving DecidableEq, Repr

/-- The state updates of `deleteMessage`: drop the message from the list,
floor-decrement the active conversation's count, and — only when the
deleted id is the watermark and the session held more than one message —
recompute the watermark: the last remaining message's id if it looks like
a server id, else the most recent remaining server id, else none. -/
def deleteMessageLocal (st : SessionState) (messageId : String) : SessionState :=
  let newMessages := st.messages.filter fun m => m.id ≠ messageId
  let newConversations := st.conversations.map fun c =>
    if c.id = st.activeConversation then
      { c with messageCount := max 0 (c.messageCount - 1) }
    else c
  let newLastSeen :=
    if st.lastSeenItemId = some messageId ∧ st.messages.length > 1 then
      let remainingMessages := st.messages.filter fun m => m.id ≠ messageId
      match remainingMessages.getLast? with
      | some lastMsg =>
        if isServerId lastMsg.id then some lastMsg.id
        else
          ((remainingMessages.reverse.find? fun m => isServerId m.id).map fun m => m.id)
      | none => none
    else st.lastSeenItemId
  { st with
    messages := newMessages
    conversations := newConversations
    lastSeenItemId := newLastSeen }

/-- The error thrown by a failed request; `name` is what the `catch` of
`sendMessage` inspects (`'AbortError'` for a cancelled request). -/
structure JsError where
  name : String
  message : String
deriving DecidableEq, Repr

/-- The optimistic phase of `sendMessage`: append the user message to the
session and mark the conversation `generating` with a bumped count and
fresh `lastActive`. -/
def appendOptimisticUser (cid : String) (now : Nat) (msgs : List Message)
    (convs : List Conversation) (userMessage : Message) :
    List Message × List Conversation :=
  (msgs ++ [userMessage],
   convs.map fun c =>
     if c.id = cid then
       { c with status := ConvStatus.generating, lastActive := now,
                messageCount := c.messageCount + 1 }
     else c)

/-- The `catch` block of `sendMessage`: a non-`AbortError` failure flips
the conversation to `error` and is re-thrown (second component); an abort
is swallowed. -/
def sendCatch (cid : String) (convs : List Conversation) (e : JsError) :
    List Conversation × Option JsError :=
  if e.name ≠ "AbortError" then
    (convs.map fun c => if c.id = cid then { c with status := ConvStatus.error } else c,
     some e)
  else (convs, none)

/-- A `sendMessage` run in which the generation request fails with `e`
after the optimistic append: the optimistic phase followed by the `catch`
block.  Returns the session messages, the conversation directory and the
propagated error. -/
def sendMessageFailureRun (cid : String) (now : Nat) (msgs : List Message)
    (convs : List Conversation) (userMessage : Message) (e : JsError) :
    List Message × List Conversation × Option JsError :=
  let opt := appendOptimisticUser cid now msgs convs userMessage
  let caught := sendCatch cid opt.2 e
  (opt.1, caught.1, caught.2)

/-- The state touched by `cancelGeneration`. -/
structure CancelState where
  isGenerating : Bool
  conversations : List Conversation
  activeConversation : Option String
  streamMgr : StreamMgr
deriving DecidableEq, Repr

/-- `cancelGeneration`: abort the HTTP request (external), cancel the
stream manager, clear the generating flag, and revert a `generating`
active conversation to `active`. -/
def cancelGeneration (st : CancelState) : CancelState :=
  { st with
    streamMgr := mgrCancel st.streamMgr
    isGenerating := false
    conversations := st.conversations.map fun c =>
      if some c.id = st.activeConversation ∧ c.status = ConvStatus.generating then
        { c with status := ConvStatus.active }
      else c }

/-! ## Gateway paging (`openai-client.ts`) -/

/-- `ConversationItem` in `openai-client.ts` (`content`, which may be a
string or an array of typed parts, is abstracted to its concatenated
text — the paging loop never reads it). -/
structure ConversationItem where
  id : String
  itemType : String
  role : Option String
  contentText : Option String
deriving DecidableEq, Repr

/-- One server response of `GET /conversations/{id}/items`. -/
structure ItemsPage where
  data : List ConversationItem
  last_id : Option String
  has_more : Bool
deriving DecidableEq, Repr

/-- The `while (hasMore)` loop of `getConversationItems`, consuming the
successive server pages in request order, accumulating `allItems` and
threading `currentLastId` (the `after` cursor of each follow-up request).
`none` models the unreachable situation of the server not answering a
follow-up request. -/
def getItemsLoop (allItems : List ConversationItem) (currentLastId : Option String)
    (hasMore : Bool) : List ItemsPage → Option (List ConversationItem × Option String)
  | [] => if hasMore then none else some (allItems, currentLastId)
  | p :: rest =>
    if hasMore then getItemsLoop (allItems ++ p.data) p.last_id p.has_more rest
    else some (allItems, currentLastId)

/-- `getConversationItems`: issue the first request, then follow the
has-more protocol; the result is the concatenation of all pages and the
final cursor (`hasMore` is returned as `false` — all pages were fetched). -/
def getConversationItems : List ItemsPage → Option (List ConversationItem × Option String)
  | [] => none
  | p :: rest => getItemsLoop p.data p.last_id p.has_more rest

/-! ## Helper lemmas -/

theorem mapIdx_id_of {α : Type _} (f : Nat → α → α) (l : List α)
    (h : ∀ i x, i < l.length → f i x = x) : l.mapIdx f = l := by
  induction l using List.reverseRecOn with
  | nil => simp
  | append_singleton l e ih =>
    rw [List.mapIdx_append_one]
    have h1 : ∀ i x, i < l.length → f i x = x := by
      intro i x hi
      apply h i x
      simp only [List.length_append, List.length_cons, List.length_nil]
      omega
    have h2 : f l.length e = e := by
      apply h l.length e
      simp only [List.length_append, List.length_cons, List.length_nil]
      omega
    rw [ih h1, h2]

/-- Both message-rewriting closures of `sendMessage` map over the list with
an `idx = length - 1 ∧ role = assistant` test: such a map touches only the
last element, and only when it is an assistant message. -/
theorem mapIdx_lastCond (g : Message → Message) (ms : List Message) (m : Message) :
    ((ms ++ [m]).mapIdx fun idx msg =>
      if idx = (ms ++ [m]).length - 1 ∧ msg.role = Role.assistant then g msg else msg)
    = ms ++ [if m.role = Role.assistant then g m else m] := by
  rw [List.mapIdx_append_one]
  have hlen : (ms ++ [m]).length - 1 = ms.length := by simp
  congr 1
  · apply mapIdx_id_of
    intro i x hi
    have hne : ¬ (i = (ms ++ [m]).length - 1 ∧ x.role = Role.assistant) := by
      simp only [List.length_append, List.length_cons, List.length_nil]
      rintro ⟨h1, -⟩
      omega
    exact if_neg hne
  · rw [hlen]
    by_cases hr : m.role = Role.assistant <;> simp [hr]

theorem applyContentDelta_append (ms : List Message) (m : Message) (d : String) :
    applyContentDelta (ms ++ [m]) d
    = ms ++ [if m.role = Role.assistant then { m with content := m.content ++ d } else m] :=
  mapIdx_lastCond (fun msg => { msg with content := msg.content ++ d }) ms m

theorem applyStreamComplete_append (ms : List Message) (m : Message)
    (sid : Option String) :
    applyStreamComplete (ms ++ [m]) sid
    = ms ++ [if m.role = Role.assistant then
        { m with id := jsOrStr sid m.id, status := MsgStatus.complete } else m] :=
  mapIdx_lastCond
    (fun msg => { msg with id := jsOrStr sid msg.id, status := MsgStatus.complete }) ms m

/-- `onContent` deltas folded over the session, as `startStream` delivers
them in arrival order. -/
def applyDeltas (msgs : List Message) (ds : List String) : List Message :=
  ds.foldl applyContentDelta msgs

/-- The concatenation of a delta sequence in delivery order. -/
def concatDeltas (ds : List String) : String :=
  ds.foldr (fun a b => a ++ b) ""

/-! ## C10 — a delta touches only the last message, and only if assistant -/

/-- C10: during streaming, a content delta delivered via `onContent`
mutates only the last message of the session and only when that message's
role is `assistant`; otherwise the whole list (ids, contents, statuses) is
unchanged, and an empty list stays empty. -/
theorem contentDelta_only_last_assistant (ms : List Message) (m : Message) (d : String) :
    (m.role = Role.assistant →
      applyContentDelta (ms ++ [m]) d = ms ++ [{ m with content := m.content ++ d }]) ∧
    (m.role ≠ Role.assistant →
      applyContentDelta (ms ++ [m]) d = ms ++ [m]) ∧
    applyContentDelta [] d = [] := by
  refine ⟨fun h => ?_, fun h => ?_, by simp [applyContentDelta]⟩
  · rw [applyContentDelta_append, if_pos h]
  · rw [applyContentDelta_append, if_neg h]

/-- Witness for C10 at concrete inputs: a delta lands on a trailing
assistant message and is discarded when the trailing message is a user
message. -/
theorem contentDelta_only_last_assistant_witness :
    applyContentDelta
        [⟨"u1", Role.user, "hi", 1, MsgStatus.complete⟩,
         ⟨"a1", Role.assistant, "He", 2, MsgStatus.streaming⟩] "llo"
      = [⟨"u1", Role.user, "hi", 1, MsgStatus.complete⟩,
         ⟨"a1", Role.assistant, "Hello", 2, MsgStatus.streaming⟩] ∧
    applyContentDelta
        [⟨"a1", Role.assistant, "He", 2, MsgStatus.complete⟩,
         ⟨"u2", Role.user, "more", 3, MsgStatus.complete⟩] "llo"
      = [⟨"a1", Role.assistant, "He", 2, MsgStatus.complete⟩,
         ⟨"u2", Role.user, "more", 3, MsgStatus.complete⟩] := by
  constructor
  · exact (contentDelta_only_last_assistant
      [⟨"u1", Role.user, "hi", 1, MsgStatus.complete⟩]
      ⟨"a1", Role.assistant, "He", 2, MsgStatus.streaming⟩ "llo").1 rfl
  · exact ((contentDelta_only_last_assistant
      [⟨"a1", Role.assistant, "He", 2, MsgStatus.complete⟩]
      ⟨"u2", Role.user, "more", 3, MsgStatus.complete⟩ "llo").2).1 (by decide)

/-! ## C3 — delta order preservation -/

/-- C3: for any sequence of content deltas delivered through `onContent`
to a session whose last message is an assistant message, the final content
of that message is its prior content followed by the exact concatenation
of the deltas in delivery order; nothing is reordered or dropped and no
other message changes. -/
theorem streamed_content_is_delta_concat (ms : List Message) (m : Message)
    (ds : List String) (h : m.role = Role.assistant) :
    applyDeltas (ms ++ [m]) ds
      = ms ++ [{ m with content := m.content ++ concatDeltas ds }] := by
  induction ds generalizing m with
  | nil =>
    simp only [applyDeltas, List.foldl_nil, concatDeltas, List.foldr_nil,
      String.append_empty]
  | cons d ds ih =>
    show applyDeltas (applyContentDelta (ms ++ [m]) d) ds = _
    rw [applyContentDelta_append, if_pos h]
    rw [ih { m with content := m.content ++ d } h]
    simp only [concatDeltas, List.foldr_cons, String.append_assoc]

/-- Witness for C3: deltas `"Hel"`, `"lo"`, `" world"` reassemble to
`"Hello world"` on the streaming placeholder. -/
theorem streamed_content_is_delta_concat_witness :
    applyDeltas [⟨"u1", Role.user, "Hi", 1, MsgStatus.complete⟩,
                 ⟨"local-1", Role.assistant, "", 2, MsgStatus.streaming⟩]
        ["Hel", "lo", " world"]
      = [⟨"u1", Role.user, "Hi", 1, MsgStatus.complete⟩,
         ⟨"local-1", Role.assistant, "Hello world", 2, MsgStatus.streaming⟩] := by
  have := streamed_content_is_delta_concat
    [⟨"u1", Role.user, "Hi", 1, MsgStatus.complete⟩]
    ⟨"local-1", Role.assistant, "", 2, MsgStatus.streaming⟩
    ["Hel", "lo", " world"] rfl
  simpa using this

/-! ## C2 — stream completion rewrites the placeholder id in place -/

/-- The effect of one non-completion loop iteration (`onChunk` then
`onContent`); a completion iteration is this followed by `onComplete`. -/
def nonCompStep (st : StreamRunState) (c : StreamChunk) : StreamRunState :=
  let st1 := onChunkUpdate st c
  let content := extractContentFromChunk c
  if content ≠ "" then { st1 with messages := applyContentDelta st1.messages content }
  else st1

theorem streamStep_eq_nonComp (cid : String) (st : StreamRunState) (c : StreamChunk)
    (h : isCompletionChunk c = false) :
    streamStep cid st c = (nonCompStep st c, false) := by
  simp only [streamStep, nonCompStep, h, Bool.false_eq_true, if_false]

theorem streamStep_eq_comp (cid : String) (st : StreamRunState) (c : StreamChunk)
    (h : isCompletionChunk c = true) :
    streamStep cid st c = (onCompleteUpdate cid (nonCompStep st c), true) := by
  simp only [streamStep, nonCompStep, h, if_true]

theorem runStream_append_nonComp (cid : String) (pre : List StreamChunk)
    (st : StreamRunState) (cs : List StreamChunk)
    (h : ∀ c ∈ pre, isCompletionChunk c = false) :
    runStream cid st (pre ++ cs) = runStream cid (pre.foldl nonCompStep st) cs := by
  induction pre generalizing st with
  | nil => simp
  | cons c pre ih =>
    have hc : isCompletionChunk c = false := h c (by simp)
    rw [List.cons_append, runStream, streamStep_eq_nonComp cid st c hc]
    rw [List.foldl_cons]
    exact ih (nonCompStep st c) fun c hc' => h c (by simp [hc'])

theorem runStream_comp_head (cid : String) (st : StreamRunState) (comp : StreamChunk)
    (rest : List StreamChunk) (h : isCompletionChunk comp = true) :
    runStream cid st (comp :: rest) = onCompleteUpdate cid (nonCompStep st comp) := by
  rw [runStream, streamStep_eq_comp cid st comp h]

theorem nonCompStep_serverItemId (st : StreamRunState) (c : StreamChunk) :
    (nonCompStep st c).serverItemId = (onChunkUpdate st c).serverItemId := by
  unfold nonCompStep
  dsimp only
  split <;> rfl

theorem foldl_nonComp_serverItemId (cs : List StreamChunk) (st : StreamRunState) :
    (cs.foldl nonCompStep st).serverItemId = firstServerIdFrom st.serverItemId cs := by
  induction cs generalizing st with
  | nil => rfl
  | cons c cs ih =>
    rw [List.foldl_cons, ih]
    have hstep : (nonCompStep st c).serverItemId
        = (if jsTruthy c.item_id ∧ ¬ jsTruthy st.serverItemId then c.item_id
           else st.serverItemId) := by
      rw [nonCompStep_serverItemId]
      unfold onChunkUpdate
      split <;> rfl
    rw [hstep]
    rfl

theorem nonCompStep_messages (st : StreamRunState) (c : StreamChunk)
    (ms : List Message) (m : Message) (hmsgs : st.messages = ms ++ [m])
    (hrole : m.role = Role.assistant) :
    ∃ s, (nonCompStep st c).messages = ms ++ [{ m with content := s }] := by
  unfold nonCompStep
  have honchunk : (onChunkUpdate st c).messages = st.messages := by
    unfold onChunkUpdate
    split <;> rfl
  dsimp only
  split
  · refine ⟨m.content ++ extractContentFromChunk c, ?_⟩
    simp only [honchunk, hmsgs]
    rw [applyContentDelta_append, if_pos hrole]
  · exact ⟨m.content, by rw [honchunk, hmsgs]⟩

theorem foldl_nonComp_messages (ms : List Message) (m : Message)
    (hrole : m.role = Role.assistant) :
    ∀ (cs : List StreamChunk) (st : StreamRunState) (s0 : String),
      st.messages = ms ++ [{ m with content := s0 }] →
      ∃ s, (cs.foldl nonCompStep st).messages = ms ++ [{ m with content := s }] := by
  intro cs
  induction cs with
  | nil => exact fun st s0 h => ⟨s0, h⟩
  | cons c cs ih =>
    intro st s0 h
    rw [List.foldl_cons]
    obtain ⟨s', hs'⟩ := nonCompStep_messages st c ms { m with content := s0 } h hrole
    exact ih (nonCompStep st c) s' hs'

/-- C2: during a streamed send, the first chunk carrying a (truthy) server
item id fixes the `serverItemId` local (first wins), and when the first
completion chunk arrives the streaming placeholder — the last message of
the session, an assistant message — is rewritten in place: its identifier
becomes that server id and its status `complete`.  No second message is
appended: the final message list is the prefix `ms` plus exactly one
assistant message. -/
theorem streaming_send_unifies_server_id (cid : String) (st : StreamRunState)
    (ms : List Message) (ph : Message) (pre : List StreamChunk) (comp : StreamChunk)
    (rest : List StreamChunk) (i : String)
    (hmsgs : st.messages = ms ++ [ph])
    (hrole : ph.role = Role.assistant)
    (hpre : ∀ c ∈ pre, isCompletionChunk c = false)
    (hcomp : isCompletionChunk comp = true)
    (hfirst : firstServerIdFrom st.serverItemId (pre ++ [comp]) = some i)
    (hi : i ≠ "") :
    (runStream cid st (pre ++ comp :: rest)).serverItemId = some i ∧
    ∃ s, (runStream cid st (pre ++ comp :: rest)).messages
      = ms ++ [{ ph with id := i, status := MsgStatus.complete, content := s }] := by
  rw [runStream_append_nonComp cid pre st (comp :: rest) hpre]
  rw [runStream_comp_head cid _ comp rest hcomp]
  have hfold : nonCompStep (pre.foldl nonCompStep st) comp
      = (pre ++ [comp]).foldl nonCompStep st := by
    rw [List.foldl_append, List.foldl_cons, List.foldl_nil]
  have hsid : (nonCompStep (pre.foldl nonCompStep st) comp).serverItemId = some i := by
    rw [hfold, foldl_nonComp_serverItemId, hfirst]
  have hm0 : st.messages = ms ++ [{ ph with content := ph.content }] := hmsgs
  obtain ⟨s, hs⟩ := foldl_nonComp_messages ms ph hrole (pre ++ [comp]) st ph.content hm0
  rw [← hfold] at hs
  constructor
  · simp only [onCompleteUpdate, hsid]
  · refine ⟨s, ?_⟩
    simp only [onCompleteUpdate, hs, hsid]
    rw [applyStreamComplete_append, if_pos hrole]
    have : jsOrStr (some i) ({ ph with content := s } : Message).id = i := by
      simp [jsOrStr, hi]
    rw [this]

/-- Witness for C2: deltas `"Hel"`, `"lo"` (the first carrying
`item_42`), then a completion chunk carrying `item_99`: the placeholder
ends with id `item_42` (first id wins), status `complete`, and the list
still has exactly two messages. -/
theorem streaming_send_unifies_server_id_witness :
    (runStream ("conv_1")
        ⟨[⟨"u1", Role.user, "Hi", 1, MsgStatus.complete⟩,
          ⟨"ph1", Role.assistant, "", 2, MsgStatus.streaming⟩], none, none, [], true⟩
        [⟨some ("response.output_text.delta"), some ("Hel"), some ("item_42")⟩,
         ⟨some ("response.output_text.delta"), some ("lo"), none⟩,
         ⟨some ("response.completed"), none, some ("item_99")⟩]).serverItemId
      = some ("item_42") ∧
    ∃ s, (runStream ("conv_1")
        ⟨[⟨"u1", Role.user, "Hi", 1, MsgStatus.complete⟩,
          ⟨"ph1", Role.assistant, "", 2, MsgStatus.streaming⟩], none, none, [], true⟩
        [⟨some ("response.output_text.delta"), some ("Hel"), some ("item_42")⟩,
         ⟨some ("response.output_text.delta"), some ("lo"), none⟩,
         ⟨some ("response.completed"), none, some ("item_99")⟩]).messages
      = [⟨"u1", Role.user, "Hi", 1, MsgStatus.complete⟩]
        ++ [{ (⟨"ph1", Role.assistant, "", 2, MsgStatus.streaming⟩ : Message) with
              id := "item_42", status := MsgStatus.complete, content := s }] :=
  streaming_send_unifies_server_id ("conv_1")
    ⟨[⟨"u1", Role.user, "Hi", 1, MsgStatus.complete⟩,
      ⟨"ph1", Role.assistant, "", 2, MsgStatus.streaming⟩], none, none, [], true⟩
    [⟨"u1", Role.user, "Hi", 1, MsgStatus.complete⟩]
    ⟨"ph1", Role.assistant, "", 2, MsgStatus.streaming⟩
    [⟨some ("response.output_text.delta"), some ("Hel"), some ("item_42")⟩,
     ⟨some ("response.output_text.delta"), some ("lo"), none⟩]
    ⟨some ("response.completed"), none, some ("item_99")⟩
    [] "item_42" rfl rfl (by decide) (by decide) (by decide) (by decide)

/-! ## The poll merge (`pollForNewItems`) — C1 and C4 -/

/-- When no remaining unique new message agrees with an existing message
on role and exact content, the replacement pass of `pollForNewItems` is
the identity: nothing is spliced and no id is rewritten. -/
theorem replacePass_id (msgs : List Message) (unique : List Message)
    (h : ∀ msg ∈ msgs, ∀ n ∈ unique, ¬ (n.role = msg.role ∧ n.content = msg.content)) :
    replacePass msgs unique = (msgs, unique) := by
  induction msgs with
  | nil => rfl
  | cons msg rest ih =>
    have hfind : (unique.find? fun n => n.role = msg.role ∧ n.content = msg.content)
        = none := by
      rw [List.find?_eq_none]
      intro n hn
      simpa using h msg (by simp) n hn
    have hrest := ih fun m hm n hn => h m (by simp [hm]) n hn
    unfold replacePass
    rw [hfind, hrest]
    split <;> rfl

/-- Signatures agree whenever role and content agree. -/
theorem signature_eq_of (n msg : Message) (h : n.role = msg.role ∧ n.content = msg.content) :
    signature n = signature msg := by
  unfold signature
  rw [h.1, h.2]

theorem bnot_true_eq_false {b : Bool} (h : (!b) = true) : b = false := by
  cases b
  · rfl
  · exact absurd h (by decide)

theorem contains_of_mem {α : Type _} [BEq α] [LawfulBEq α] {l : List α} {a : α}
    (h : a ∈ l) : l.contains a = true :=
  List.elem_iff.mpr h

theorem contains_append_left {α : Type _} [BEq α] [LawfulBEq α] (l1 l2 : List α) (a : α)
    (h : l1.contains a = true) : (l1 ++ l2).contains a = true :=
  contains_of_mem (List.mem_append.mpr (Or.inl (List.elem_iff.mp h)))

/-- Key fact about the poll merge: the signature-based dedup filter
removes every polled message that agrees with an existing message on role
and content before the replacement pass can see it, so the merge always
reduces to appending the filtered messages — no local identifier is ever
replaced. -/
theorem mergePoll_eq_append (prev new : List Message) :
    mergePollMessages prev new = prev ++ uniqueNewMessages prev new := by
  unfold mergePollMessages
  by_cases hempty : (uniqueNewMessages prev new).isEmpty
  · rw [if_pos hempty]
    rw [List.isEmpty_iff.mp hempty, List.append_nil]
  · rw [if_neg hempty]
    have h : ∀ msg ∈ prev, ∀ n ∈ uniqueNewMessages prev new,
        ¬ (n.role = msg.role ∧ n.content = msg.content) := by
      intro msg hmsg n hn hcontra
      have hmem := (List.mem_filter.mp hn).2
      have hsig : (prev.map signature).contains (signature n) = false :=
        bnot_true_eq_false ((Bool.and_eq_true .. ▸ hmem).2)
      have htrue : (prev.map signature).contains (signature n) = true := by
        apply contains_of_mem
        rw [signature_eq_of n msg hcontra]
        exact List.mem_map.mpr ⟨msg, hmsg, rfl⟩
      rw [hsig] at htrue
      exact Bool.false_ne_true htrue
    rw [replacePass_id prev (uniqueNewMessages prev new) h]

/-- C4: applying the same poll result to the session twice leaves the
message list exactly as after the first application — the merge is
idempotent, so overlapping poll pages change neither the count nor the
content of the list and create no duplicates. -/
theorem pollMerge_idempotent (prev new : List Message) :
    mergePollMessages (mergePollMessages prev new) new = mergePollMessages prev new := by
  rw [mergePoll_eq_append prev new]
  have hnil : uniqueNewMessages (prev ++ uniqueNewMessages prev new) new = [] := by
    rw [show uniqueNewMessages (prev ++ uniqueNewMessages prev new) new
        = new.filter (fun m =>
            !(((prev ++ uniqueNewMessages prev new).map fun m => m.id).contains m.id)
            && !(((prev ++ uniqueNewMessages prev new).map signature).contains (signature m)))
      from rfl]
    rw [List.filter_eq_nil_iff]
    intro m hm hc
    rcases (Bool.and_eq_true .. ▸ hc) with ⟨hc1, hc2⟩
    by_cases hkeep : m ∈ uniqueNewMessages prev new
    · have htrue : ((prev ++ uniqueNewMessages prev new).map fun m => m.id).contains m.id
          = true :=
        contains_of_mem (List.mem_map.mpr ⟨m, List.mem_append.mpr (Or.inr hkeep), rfl⟩)
      rw [bnot_true_eq_false hc1] at htrue
      exact Bool.false_ne_true htrue
    · have hor : ((prev.map fun m => m.id).contains m.id = true)
          ∨ ((prev.map signature).contains (signature m) = true) := by
        by_cases h1 : (prev.map fun m => m.id).contains m.id = true
        · exact Or.inl h1
        · by_cases h2 : (prev.map signature).contains (signature m) = true
          · exact Or.inr h2
          · exfalso
            apply hkeep
            apply List.mem_filter.mpr
            refine ⟨hm, ?_⟩
            rw [Bool.eq_false_iff.mpr h1, Bool.eq_false_iff.mpr h2]
            rfl
      rcases hor with hid | hsig
      · have htrue := contains_append_left (prev.map fun m => m.id)
          ((uniqueNewMessages prev new).map fun m => m.id) m.id hid
        rw [← List.map_append] at htrue
        rw [bnot_true_eq_false hc1] at htrue
        exact Bool.false_ne_true htrue
      · have htrue := contains_append_left (prev.map signature)
          ((uniqueNewMessages prev new).map signature) (signature m) hsig
        rw [← List.map_append] at htrue
        rw [bnot_true_eq_false hc2] at htrue
        exact Bool.false_ne_true htrue
  rw [mergePoll_eq_append, hnil, List.append_nil]

/-- C1 (behavior of the code at the spec's own scenario): a local
streaming assistant placeholder (a 36-character UUID id) holds
`"Hi there"`; a poll delivers the same turn as server item `item_9`.  The
signature dedup filter removes the polled item before the replacement pass
can see it, so the merge returns the list unchanged: still exactly one
assistant message, but its identifier is STILL the local UUID, not
`item_9` — the in-place id unification promised by the poll path never
happens. -/
theorem pollMerge_leaves_local_id :
    mergePollMessages
        [⟨"aaaaaaaa-aaaa-aaaa-aaaa-aaaaaaaaaaaa", Role.assistant, "Hi there", 5,
          MsgStatus.streaming⟩]
        [⟨"item_9", Role.assistant, "Hi there", 0, MsgStatus.complete⟩]
      = [⟨"aaaaaaaa-aaaa-aaaa-aaaa-aaaaaaaaaaaa", Role.assistant, "Hi there", 5,
          MsgStatus.streaming⟩] ∧
    ∀ m ∈ mergePollMessages
        [⟨"aaaaaaaa-aaaa-aaaa-aaaa-aaaaaaaaaaaa", Role.assistant, "Hi there", 5,
          MsgStatus.streaming⟩]
        [⟨"item_9", Role.assistant, "Hi there", 0, MsgStatus.complete⟩],
      m.id ≠ "item_9" := by
  constructor
  · rfl
  · decide

/-! ## C6 — message deletion and watermark recomputation -/

/-- The two-step watermark recomputation of `deleteMessage` (check the
last remaining message first, else scan backwards) is exactly a backwards
scan for the most recent server-id message. -/
theorem lastOrFind (l : List Message) :
    (match l.getLast? with
     | some lastMsg =>
       if isServerId lastMsg.id then some lastMsg.id
       else ((l.reverse.find? fun m => isServerId m.id).map fun m => m.id)
     | none => none)
    = ((l.reverse.find? fun m => isServerId m.id).map fun m => m.id) := by
  induction l using List.reverseRecOn with
  | nil => rfl
  | append_singleton l e ih =>
    rw [List.getLast?_concat]
    have hrev : (l ++ [e]).reverse = e :: l.reverse := by
      rw [List.reverse_append]
      rfl
    show (if isServerId e.id = true then some e.id
        else ((l ++ [e]).reverse.find? fun m => isServerId m.id).map fun m => m.id)
      = ((l ++ [e]).reverse.find? fun m => isServerId m.id).map fun m => m.id
    by_cases hp : isServerId e.id = true
    · rw [if_pos hp, hrev]
      have hfind : List.find? (fun m => isServerId m.id) (e :: l.reverse) = some e := by
        simp [List.find?_cons, hp]
      rw [hfind, Option.map_some']
    · rw [if_neg hp]

/-- C6 amended: `deleteMessage` removes the message, floor-decrements the
active conversation's count, and recomputes the watermark as the most
recent remaining server-id message (`none` when none remain) — but ONLY
when the deleted id was the watermark AND the session held more than one
message; otherwise (in particular when the deleted message was the only
one) the watermark is left unchanged. -/
theorem deleteMessage_spec (st : SessionState) (mid : String) :
    (deleteMessageLocal st mid).messages = st.messages.filter (fun m => m.id ≠ mid) ∧
    (∀ c ∈ st.conversations, c.id = st.activeConversation →
      { c with messageCount := max 0 (c.messageCount - 1) }
        ∈ (deleteMessageLocal st mid).conversations) ∧
    (st.lastSeenItemId = some mid → st.messages.length > 1 →
      (deleteMessageLocal st mid).lastSeenItemId
        = (((st.messages.filter fun m => m.id ≠ mid).reverse.find?
            fun m => isServerId m.id).map fun m => m.id)) ∧
    (¬ (st.lastSeenItemId = some mid ∧ st.messages.length > 1) →
      (deleteMessageLocal st mid).lastSeenItemId = st.lastSeenItemId) := by
  refine ⟨rfl, ?_, ?_, ?_⟩
  · intro c hc hid
    apply List.mem_map.mpr
    exact ⟨c, hc, by rw [if_pos hid]⟩
  · intro h1 h2
    show (if st.lastSeenItemId = some mid ∧ st.messages.length > 1 then _ else _) = _
    rw [if_pos ⟨h1, h2⟩]
    exact lastOrFind (st.messages.filter fun m => m.id ≠ mid)
  · intro h
    show (if st.lastSeenItemId = some mid ∧ st.messages.length > 1 then _ else _) = _
    rw [if_neg h]

/-- Counterexample to C6 as stated: the session holds exactly one message,
which is the watermark.  Deleting it empties the message list, yet the
watermark is NOT recomputed to "none" — the `length > 1` guard skips the
recompute and the watermark stays pointing at the deleted item. -/
theorem deleteMessage_watermark_stale :
    (deleteMessageLocal
        ⟨"conv_1", [⟨"item_1", Role.user, "hello", 1, MsgStatus.complete⟩], [],
          some ("item_1")⟩ ("item_1")).messages = [] ∧
    (deleteMessageLocal
        ⟨"conv_1", [⟨"item_1", Role.user, "hello", 1, MsgStatus.complete⟩], [],
          some ("item_1")⟩ ("item_1")).lastSeenItemId = some ("item_1") ∧
    (deleteMessageLocal
        ⟨"conv_1", [⟨"item_1", Role.user, "hello", 1, MsgStatus.complete⟩], [],
          some ("item_1")⟩ ("item_1")).lastSeenItemId ≠ none := by
  refine ⟨rfl, rfl, by decide⟩

/-- Witness for the amended C6 at the spec's scenario: items
`[item_1, item_2, item_3]`, watermark `item_3`; deleting `item_3`
recomputes the watermark to `item_2`. -/
theorem deleteMessage_spec_witness :
    (deleteMessageLocal
        ⟨"conv_1",
         [⟨"item_1", Role.user, "q", 1, MsgStatus.complete⟩,
          ⟨"item_2", Role.assistant, "a", 2, MsgStatus.complete⟩,
          ⟨"item_3", Role.user, "q2", 3, MsgStatus.complete⟩], [],
          some ("item_3")⟩ ("item_3")).lastSeenItemId = some ("item_2") := by
  have h := (deleteMessage_spec
      ⟨"conv_1",
       [⟨"item_1", Role.user, "q", 1, MsgStatus.complete⟩,
        ⟨"item_2", Role.assistant, "a", 2, MsgStatus.complete⟩,
        ⟨"item_3", Role.user, "q2", 3, MsgStatus.complete⟩], [],
        some ("item_3")⟩ ("item_3")).2.2.1 rfl (by decide)
  rw [h]
  rfl

/-! ## C7 — transparent full pagination -/

theorem getItemsLoop_full (ps : List ItemsPage) (pl : ItemsPage)
    (acc : List ConversationItem) (cur : Option String)
    (hmid : ∀ p ∈ ps, p.has_more = true) (hlast : pl.has_more = false) :
    getItemsLoop acc cur true (ps ++ [pl])
      = some (acc ++ ((ps.map fun p => p.data).flatten ++ pl.data), pl.last_id) := by
  induction ps generalizing acc cur with
  | nil =>
    rw [List.nil_append]
    show getItemsLoop (acc ++ pl.data) pl.last_id pl.has_more [] = _
    rw [hlast]
    show some (acc ++ pl.data, pl.last_id) = _
    simp
  | cons p ps ih =>
    have hp : p.has_more = true := hmid p (by simp)
    rw [List.cons_append]
    show getItemsLoop (acc ++ p.data) p.last_id p.has_more (ps ++ [pl]) = _
    rw [hp, ih (acc ++ p.data) p.last_id (fun q hq => hmid q (by simp [hq]))]
    simp [List.append_assoc]

/-- C7: whatever the server's paging behavior — any nonempty sequence of
pages, all but the last flagged `has_more`, the last not — a single
`getConversationItems` call follows the continuation-cursor protocol to
the end and returns the concatenation of all pages' items in order
together with the last page's cursor; no partial page is ever exposed. -/
theorem getConversationItems_full_pagination (ps : List ItemsPage) (pl : ItemsPage)
    (hmid : ∀ p ∈ ps, p.has_more = true) (hlast : pl.has_more = false) :
    getConversationItems (ps ++ [pl])
      = some ((((ps ++ [pl]).map fun p => p.data).flatten), pl.last_id) := by
  cases ps with
  | nil =>
    rw [List.nil_append]
    show getItemsLoop pl.data pl.last_id pl.has_more [] = _
    rw [hlast]
    show some (pl.data, pl.last_id) = _
    simp
  | cons p ps' =>
    rw [List.cons_append]
    show getItemsLoop p.data p.last_id p.has_more (ps' ++ [pl]) = _
    rw [hmid p (by simp),
      getItemsLoop_full ps' pl p.data p.last_id (fun q hq => hmid q (by simp [hq])) hlast]
    simp

/-- Witness for C7: two pages, the first flagged `has_more`, are fetched
as one logical call returning both items and the final cursor. -/
theorem getConversationItems_full_pagination_witness :
    getConversationItems
        [⟨[⟨"item_a", "message", some ("user"), some ("hi")⟩], some ("item_a"), true⟩,
         ⟨[⟨"item_b", "message", some ("assistant"), some ("hello")⟩], some ("item_b"), false⟩]
      = some ([⟨"item_a", "message", some ("user"), some ("hi")⟩,
               ⟨"item_b", "message", some ("assistant"), some ("hello")⟩],
              some ("item_b")) := by
  have h := getConversationItems_full_pagination
    [⟨[⟨"item_a", "message", some ("user"), some ("hi")⟩], some ("item_a"), true⟩]
    ⟨[⟨"item_b", "message", some ("assistant"), some ("hello")⟩], some ("item_b"), false⟩
    (by decide) rfl
  rw [show ([⟨[⟨"item_a", "message", some ("user"), some ("hi")⟩], some ("item_a"), true⟩,
       ⟨[⟨"item_b", "message", some ("assistant"), some ("hello")⟩], some ("item_b"), false⟩]
      : List ItemsPage)
    = [⟨[⟨"item_a", "message", some ("user"), some ("hi")⟩], some ("item_a"), true⟩]
      ++ [⟨[⟨"item_b", "message", some ("assistant"), some ("hello")⟩], some ("item_b"), false⟩]
    from rfl, h]
  rfl

/-! ## C8 — decoder resilience to malformed frames -/

theorem sseFeedLine_foldl_frames (parse : String → Option StreamChunk)
    (lines : List String) :
    ∀ acc : List StreamChunk × Nat,
      (lines.foldl (sseFeedLine parse) acc).1
        = acc.1 ++ lines.filterMap (lineFrame parse) := by
  induction lines with
  | nil => intro acc; simp
  | cons line rest ih =>
    intro acc
    rw [List.foldl_cons, ih, List.filterMap_cons]
    by_cases hs : jsStartsWith line ("data: ") = true
    · by_cases hd : jsDrop line 6 = "[DONE]"
      · simp [sseFeedLine, lineFrame, hs, hd]
      · cases hp : parse (jsDrop line 6) with
        | some c => simp [sseFeedLine, lineFrame, hs, hd, hp]
        | none => simp [sseFeedLine, lineFrame, hs, hd, hp]
    · simp [sseFeedLine, lineFrame, hs]

theorem sseFeedLine_foldl_errors (parse : String → Option StreamChunk)
    (lines : List String) :
    ∀ acc : List StreamChunk × Nat,
      (lines.foldl (sseFeedLine parse) acc).2
        = acc.2 + lines.countP (fun l => lineMalformed parse l) := by
  induction lines with
  | nil => intro acc; simp
  | cons line rest ih =>
    intro acc
    rw [List.foldl_cons, ih, List.countP_cons]
    by_cases hs : jsStartsWith line ("data: ") = true
    · by_cases hd : jsDrop line 6 = "[DONE]"
      · simp [sseFeedLine, lineMalformed, hs, hd]
      · cases hp : parse (jsDrop line 6) with
        | some c => simp [sseFeedLine, lineMalformed, hs, hd, hp]
        | none =>
          simp only [sseFeedLine, lineMalformed, hs, hd, hp, if_true, if_false]
          simp [hs, hd, hp]
          omega
    · simp [sseFeedLine, lineMalformed, hs]

/-- C8: for every buffered state and every incoming text chunk, `feed` is
a total function (it never throws) whose output frames are exactly the
well-formed `data: ` payloads of the complete lines in order: a malformed
JSON payload contributes nothing to the output but bumps the logged error
count by one, and decoding continues with the very next line — one bad
line followed by a valid completion frame yields exactly that one frame
and one logged failure. -/
theorem sseFeed_malformed_resilient (parse : String → Option StreamChunk)
    (p : SSEParser) (chunk : String) :
    (sseFeed parse p chunk).1
      = (((p.buffer ++ chunk).splitOn "\n").dropLast).filterMap (lineFrame parse) ∧
    (sseFeed parse p chunk).2.1
      = (((p.buffer ++ chunk).splitOn "\n").dropLast).countP
          (fun l => lineMalformed parse l) ∧
    (sseFeed parse p chunk).2.2
      = ⟨((((p.buffer ++ chunk).splitOn "\n").getLast?)).getD ""⟩ := by
  refine ⟨?_, ?_, rfl⟩
  · show ((((p.buffer ++ chunk).splitOn "\n").dropLast).foldl
        (sseFeedLine parse) ([], 0)).1 = _
    rw [sseFeedLine_foldl_frames]
    rfl
  · show ((((p.buffer ++ chunk).splitOn "\n").dropLast).foldl
        (sseFeedLine parse) ([], 0)).2 = _
    rw [sseFeedLine_foldl_errors]
    simp

/-! ## C5 — cancellation silence -/

/-- C5: after `cancelGeneration` the generating flag is cleared and the
stream manager's controller is `null`; the `catch` dispatch of
`startStream` with a `null` controller can never invoke `onError` (it
throws a `TypeError` instead of reporting), and the read-loop abort check
can never continue the loop either — no error after cancellation is ever
reported through `onError`. -/
theorem cancellation_never_invokes_onError (st : CancelState) :
    (cancelGeneration st).isGenerating = false ∧
    (cancelGeneration st).streamMgr = none ∧
    startStreamCatch (cancelGeneration st).streamMgr ≠ CatchOutcome.onErrorInvoked ∧
    loopAbortCheck (cancelGeneration st).streamMgr ≠ Except.ok false := by
  have hmgr : mgrCancel st.streamMgr = none := by
    cases h : st.streamMgr <;> rfl
  refine ⟨rfl, hmgr, ?_, ?_⟩
  · show startStreamCatch (mgrCancel st.streamMgr) ≠ _
    rw [hmgr]
    decide
  · show loopAbortCheck (mgrCancel st.streamMgr) ≠ _
    rw [hmgr]
    simp [loopAbortCheck]

/-! ## C9 — non-cancellation failures propagate, optimistic message kept -/

/-- C9: when the generation request of `sendMessage` fails with any error
whose name is not `AbortError`, the failure is re-thrown to the caller,
the conversation's status flips to `error` (its count and `lastActive`
keep the optimistic update), and the optimistically appended user message
is still in the session — it is not rolled back. -/
theorem sendMessage_failure_propagates (cid : String) (now : Nat)
    (msgs : List Message) (convs : List Conversation) (userMessage : Message)
    (e : JsError) (h : e.name ≠ "AbortError") :
    sendMessageFailureRun cid now msgs convs userMessage e
      = (msgs ++ [userMessage],
         convs.map fun c =>
           if c.id = cid then
             { c with status := ConvStatus.error, lastActive := now,
                      messageCount := c.messageCount + 1 }
           else c,
         some e) := by
  unfold sendMessageFailureRun appendOptimisticUser sendCatch
  dsimp only
  rw [if_pos h]
  refine Prod.ext rfl (Prod.ext ?_ rfl)
  show ((convs.map _).map _) = _
  rw [List.map_map]
  apply List.map_congr_left
  intro c _
  by_cases hc : c.id = cid
  · simp [Function.comp, hc]
  · simp [Function.comp, hc]

/-- Witness for C9: a `TypeError`-named failure after sending `"Hi"`
leaves the user message in place, marks the conversation `error` and is
re-thrown. -/
theorem sendMessage_failure_propagates_witness :
    sendMessageFailureRun ("conv_1") 7
        [⟨"item_1", Role.assistant, "hello", 1, MsgStatus.complete⟩]
        [⟨"conv_1", none, 0, 0, 1, ConvStatus.active⟩]
        ⟨"u-local", Role.user, "Hi", 7, MsgStatus.complete⟩
        ⟨"TypeError", "network down"⟩
      = ([⟨"item_1", Role.assistant, "hello", 1, MsgStatus.complete⟩,
          ⟨"u-local", Role.user, "Hi", 7, MsgStatus.complete⟩],
         [⟨"conv_1", none, 0, 7, 2, ConvStatus.error⟩],
         some ⟨"TypeError", "network down"⟩) := by
  have h := sendMessage_failure_propagates ("conv_1") 7
    [⟨"item_1", Role.assistant, "hello", 1, MsgStatus.complete⟩]
    [⟨"conv_1", none, 0, 0, 1, ConvStatus.active⟩]
    ⟨"u-local", Role.user, "Hi", 7, MsgStatus.complete⟩
    ⟨"TypeError", "network down"⟩ (by decide)
  rw [h]
  rfl

end Spec2Proof
